import Mathlib

/-!
Verification of the `classtools` Python module (`src/classtools/classtools.py`).

The module provides four descriptor-based primitives:
* `immutable_property` — a lazily-materialized, per-instance cached slot;
* `variantmethod` / `_Variant` — a keyed dispatch table shared by reference
  across instances, with a per-instance current-key selection;
* `Signal` / `_Emitter` — an observer registry whose callbacks are invoked
  with zero or one argument depending on their introspected signatures;
* `declare` — a forward method declaration with subclass-scoped override.

The shallow embedding below models Python dicts as association lists with
unique keys (insertion replaces in place, preserving position, as CPython
dicts do), Python object mutation as explicit state passing, attribute
storage (`obj.__dict__`) as a per-instance association list, and raised
exceptions as `Except String` results (an `error` result models an exception
propagating with no state change).  Reference sharing of the class-level
virtual table is modeled with an explicit heap of table objects addressed by
natural numbers.
-/

namespace Classtools

/-- Lookup in a Python dict modeled as an association list: first binding
wins (bindings are unique in any dict built by `dictInsert`). -/
def alookup {K V : Type} [DecidableEq K] : List (K × V) → K → Option V
  | [], _ => none
  | (k2, v) :: rest, k => if k2 = k then some v else alookup rest k

/-- Python dict assignment `d[k] = v`: replaces the binding in place if the
key is present (keeping its position, as CPython dicts do), else appends. -/
def dictInsert {K V : Type} [DecidableEq K] : List (K × V) → K → V → List (K × V)
  | [], k, v => [(k, v)]
  | (k2, v2) :: rest, k, v =>
    if k2 = k then (k, v) :: rest else (k2, v2) :: dictInsert rest k v

/-- Python dict deletion `del d[k]`: removes the first binding for `k`. -/
def dictErase {K V : Type} [DecidableEq K] : List (K × V) → K → List (K × V)
  | [], _ => []
  | (k2, v2) :: rest, k =>
    if k2 = k then rest else (k2, v2) :: dictErase rest k

/-- Python `list.remove(x)`: removes the first element equal to `x`, or
raises `ValueError` when no element matches (the list is then unchanged,
which the `error` result models: the exception propagates and the caller
keeps the original list). -/
def pyRemove {α : Type} [DecidableEq α] : List α → α → Except String (List α)
  | [], _ => .error "list remove: x not in list"
  | x :: xs, a =>
    if x = a then .ok xs else (pyRemove xs a).map (fun l => x :: l)

/-! ## `immutable_property` (the LazySlot)

`immutable_property.__get__` (lines 47-59) returns the stored value when the
slot name is a key of `obj.__dict__`, and otherwise calls the default
factory bound to the instance, stores the result under the slot name and
returns it.  `__delete__` (lines 64-68) removes the stored entry when
present.  The state below carries the instance storage plus a ghost counter
`fcalls` of factory invocations; the factory is modeled as a function of
that counter so that a Python factory returning a fresh object on every
call is expressible (a constant function models a factory that always
returns the same reference). -/

structure IPState (V : Type) where
  dict : List (String × V)
  fcalls : Nat
  deriving Repr, DecidableEq

/-- Embedding of `immutable_property.__get__` on an instance (lines 47-59):
return the cached value if present, otherwise invoke the factory once,
cache and return its result. -/
def iget {V : Type} (name : String) (fac : Nat → V) (σ : IPState V) :
    V × IPState V :=
  match alookup σ.dict name with
  | some v => (v, σ)
  | none =>
    let v := fac σ.fcalls
    (v, ⟨dictInsert σ.dict name v, σ.fcalls + 1⟩)

/-- Embedding of `immutable_property.__delete__` (lines 64-68): drop the
cached entry when present, otherwise do nothing. -/
def idelete {V : Type} (name : String) (σ : IPState V) : IPState V :=
  match alookup σ.dict name with
  | some _ => ⟨dictErase σ.dict name, σ.fcalls⟩
  | none => σ

/-- Embedding of the Python test `name.startswith('_')` for the one-character
prefix used by `immutable_property.__set_name__`: the first character is an
underscore. -/
def startsWithUnderscore (s : String) : Bool :=
  match s.data with
  | [] => false
  | c :: _ => c = '_'

/-- Embedding of `immutable_property.__set_name__` (lines 34-41): the first
binding fixes the name; a later binding under a different name raises
unless the new name starts with an underscore. -/
def ipSetName (cur : Option String) (name : String) :
    Except String (Option String) :=
  match cur with
  | none => .ok (some name)
  | some n =>
    if name ≠ n ∧ ¬ startsWithUnderscore name then
      .error ("Cannot assign the same attribute to two different names " ++
        n ++ " and " ++ name)
    else
      .ok (some n)

/-- Embedding of `declare.__set_name__` (lines 293-300): the first binding
fixes the name; any later binding under a different name raises, with no
exemption for underscore-prefixed names. -/
def declSetName (cur : Option String) (name : String) :
    Except String (Option String) :=
  match cur with
  | none => .ok (some name)
  | some n =>
    if name ≠ n then
      .error ("Cannot assign the same declare to two different names " ++
        n ++ " and " ++ name)
    else
      .ok (some n)

/-! ## `variantmethod` and `_Variant` (the keyed dispatch table)

`variantmethod.__init__` (lines 176-179) seeds a class-level dict
`virtual_table = {key: func}` and an `immutable_property` whose factory
builds `_Variant(key, obj, self.virtual_table)`; `_Variant.__init__`
(lines 90-99) stores that dict *by reference* in `_vt_ref`.  The embedding
makes the reference explicit: table objects live on a heap addressed by
naturals, the class object `variantmethod` holds the address of its table,
and every `_Variant` holds an address in `vtAddr`.  `register` (lines
184-188) mutates the table object in place at the class's address; all
dispatcher reads (`__call__`, `__len__`, `__getitem__`, `__contains__`)
dereference `vtAddr` in the current heap.  The per-instance `_Variant`
object is stored in the instance's `__dict__` by `immutable_property`, so
instance storage maps the slot name to a `_Variant`. -/

structure _Variant (K T : Type) where
  vtAddr : Nat
  curr_key : K
  inst : T
  deriving Repr, DecidableEq

structure VMState (K T A R : Type) where
  heap : Nat → List (K × (T → A → R))
  storage : T → List (String × _Variant K T)

structure variantmethod (K : Type) where
  name : String
  vtAddr : Nat
  defaultKey : K
  deriving Repr, DecidableEq

/-- Embedding of `immutable_property.__get__` specialized to a
`variantmethod` slot (lines 47-59 with the factory from line 177): return
the `_Variant` cached in the instance storage if present; otherwise build
`_Variant(defaultKey, obj, virtual_table)` — the table passed by address —
and cache it. -/
def vmGet {K T A R : Type} [DecidableEq T] (vm : variantmethod K) (obj : T)
    (σ : VMState K T A R) : _Variant K T × VMState K T A R :=
  match alookup (σ.storage obj) vm.name with
  | some d => (d, σ)
  | none =>
    let d : _Variant K T := ⟨vm.vtAddr, vm.defaultKey, obj⟩
    (d, { σ with storage := fun o =>
      if o = obj then dictInsert (σ.storage o) vm.name d else σ.storage o })

/-- Embedding of `variantmethod.register` (lines 184-188): mutate the
class-level table object in place, `self.virtual_table[key] = func`. -/
def vmRegister {K T A R : Type} [DecidableEq K] (vm : variantmethod K)
    (k : K) (g : T → A → R) (σ : VMState K T A R) : VMState K T A R :=
  { σ with heap := fun a =>
      if a = vm.vtAddr then dictInsert (σ.heap a) k g else σ.heap a }

/-- Embedding of `_Variant.set` (lines 119-120): reassign `curr_key`
unconditionally, with no validation against the table. -/
def vSet {K T : Type} (d : _Variant K T) (k : K) : _Variant K T :=
  { d with curr_key := k }

/-- Embedding of `_Variant.__call__` (lines 101-107): look up `curr_key` in
the referenced table; raise `AttributeError` naming the key when absent,
else bind the implementation to the stored instance and invoke it. -/
def vCall {K T A R : Type} [DecidableEq K] [ToString K] (d : _Variant K T)
    (σ : VMState K T A R) (args : A) : Except String R :=
  match alookup (σ.heap d.vtAddr) d.curr_key with
  | none => .error ("no variant was registered by " ++ toString d.curr_key)
  | some impl => .ok (impl d.inst args)

/-- Embedding of `_Variant.__getitem__` (lines 112-114): look up the given
key (raising `KeyError` when absent) and bind the implementation to the
stored instance. -/
def vItem {K T A R : Type} [DecidableEq K] (d : _Variant K T)
    (σ : VMState K T A R) (k : K) : Except String (A → R) :=
  match alookup (σ.heap d.vtAddr) k with
  | none => .error "KeyError"
  | some impl => .ok (fun a => impl d.inst a)

/-- Embedding of `_Variant.__contains__` (lines 116-117). -/
def vContains {K T A R : Type} [DecidableEq K] (d : _Variant K T)
    (σ : VMState K T A R) (k : K) : Bool :=
  (alookup (σ.heap d.vtAddr) k).isSome

/-- Embedding of `_Variant.__len__` (lines 109-110). -/
def vLen {K T A R : Type} (d : _Variant K T) (σ : VMState K T A R) : Nat :=
  (σ.heap d.vtAddr).length

/-- The statement `obj.slot.set(k)`: materialize the instance's dispatcher
through `immutable_property.__get__`, then mutate its `curr_key` in place —
the mutation lands on the `_Variant` object stored in that instance's own
`__dict__` (lines 119-120 after lines 47-59). -/
def sysSet {K T A R : Type} [DecidableEq T] (vm : variantmethod K) (obj : T)
    (k : K) (σ : VMState K T A R) : VMState K T A R :=
  let p := vmGet vm obj σ
  { p.2 with storage := fun o =>
      if o = obj then dictInsert (p.2.storage o) vm.name (vSet p.1 k)
      else p.2.storage o }

/-- The statement `obj.slot(args)`: materialize the instance's dispatcher,
then dispatch through `_Variant.__call__`. -/
def sysCall {K T A R : Type} [DecidableEq K] [DecidableEq T] [ToString K]
    (vm : variantmethod K) (obj : T) (args : A) (σ : VMState K T A R) :
    Except String R × VMState K T A R :=
  let p := vmGet vm obj σ
  (vCall p.1 p.2 args, p.2)

/-! ## `Signal` and `_Emitter` (the observer registry)

A callback is modeled by an identifier, the outcome of introspecting its
signature (`inspect.signature(func).parameters`, lines 212-215: `hasParams`
is true when the parameter mapping is nonempty, `introspectable` is false
when `inspect.signature` raises `TypeError` and the callback is skipped),
and no payload behavior — what `emit` guarantees about each callback is
exactly which arguments it is invoked with, so the embedding of `emit`
returns the invocation trace: one `(id, argument list)` pair per invoked
callback, in invocation order. -/

structure CB where
  id : Nat
  hasParams : Bool
  introspectable : Bool
  deriving Repr, DecidableEq

/-- Embedding of `_Emitter.__init__` (lines 196-199): the resolved callback
list is the descriptor-bound callbacks, each resolved against the owning
instance (`func.__get__(obj, obj.__class__)`, modeled by applying the
descriptor to the instance), followed by the free callbacks as-is. -/
def mkEmitter {T : Type} (obj : T) (cb_m : List (T → CB)) (cb_f : List CB) :
    List CB :=
  cb_m.map (fun desc => desc obj) ++ cb_f

/-- The arguments one callback receives in `_Emitter.emit` (lines 211-222):
a non-introspectable callback is skipped; a callback with parameters
receives `args[:1]`; a callback without parameters receives no arguments. -/
def invokeWith {V : Type} (args : List V) (cb : CB) : Option (Nat × List V) :=
  if cb.introspectable then
    some (cb.id, if cb.hasParams then args.take 1 else [])
  else
    none

/-- Embedding of `_Emitter.emit` (lines 205-222): raise `TypeError` when
more than one positional argument is supplied — before any callback runs —
and otherwise invoke every callback in list order with its adapted
arguments, returning the invocation trace. -/
def emit {V : Type} (cbs : List CB) (args : List V) :
    Except String (List (Nat × List V)) :=
  if args.length > 1 then .error "too many arguments for emit"
  else .ok (cbs.filterMap (invokeWith args))

/-- The class-level callback registry of a `Signal` (lines 236-241):
`_cb_m` holds the descriptor-bound callbacks, `_cb_f` the free callbacks,
here identified by `Nat` ids (Python compares list members with equality in
`list.remove`). -/
structure Signal where
  cb_m : List Nat
  cb_f : List Nat
  deriving Repr, DecidableEq

/-- Embedding of `Signal.unbindm` (lines 254-256): `self._cb_m.remove(func)`
with no exception handling, so an absent target raises `ValueError` and the
registry is unchanged. -/
def Signal.unbindm (s : Signal) (f : Nat) : Except String Signal :=
  (pyRemove s.cb_m f).map (fun l => { s with cb_m := l })

/-- Embedding of `Signal.unbindf` (lines 265-267): `self._cb_f.remove(func)`
with no exception handling. -/
def Signal.unbindf (s : Signal) (f : Nat) : Except String Signal :=
  (pyRemove s.cb_f f).map (fun l => { s with cb_f := l })

/-- Embedding of `_Emitter.disconnect` (lines 228-233): remove the target
from the per-instance resolved list, swallowing the `ValueError` raised for
an absent target. -/
def disconnect {α : Type} [DecidableEq α] (l : List α) (a : α) : List α :=
  match pyRemove l a with
  | .ok l2 => l2
  | .error _ => l

/-! ## `declare` (forward method declarations)

A `declare` object (lines 282-363) carries a name bound by `__set_name__`,
the original stub, and an implementation slot `__func__`, initially `None`.
Implementations are modeled as functions `T → A → R` of the instance and
the arguments (Python functions are descriptors, so `__get__` binds them to
the instance; lines 325-328).  A class is a name plus a namespace mapping
attribute names to declarations; instance attribute fetch resolves through
the method resolution order, a list of classes with the accessed class
first. -/

structure Stub (T A R : Type) where
  fname : String
  fn : T → A → R

structure Declaration (T A R : Type) where
  dname : Option String
  stub : Stub T A R
  func : Option (T → A → R)

structure DClass (T A R : Type) where
  cname : String
  dict : List (String × Declaration T A R)

/-- Standard attribute resolution: the first class in the method resolution
order whose own namespace defines the attribute provides the declaration. -/
def resolveAttr {T A R : Type} :
    List (DClass T A R) → String → Option (Declaration T A R)
  | [], _ => none
  | c :: rest, attr =>
    match alookup c.dict attr with
    | some d => some d
    | none => resolveAttr rest attr

/-- The `__name__` of the accessed class (the head of the method resolution
order), used in the not-implemented error message (line 322). -/
def headName {T A R : Type} : List (DClass T A R) → String
  | [] => ""
  | c :: _ => c.cname

/-- Embedding of `declare.__get__` through an instance (lines 315-328):
resolve the declaration through the method resolution order; raise
`NotImplementedError` naming the method and the accessed class when its
implementation slot is empty; otherwise bind the implementation to the
instance and return it. -/
def dGet {T A R : Type} (mro : List (DClass T A R)) (attr : String)
    (inst : T) : Except String (A → R) :=
  match resolveAttr mro attr with
  | none => .error ("type object has no attribute " ++ attr)
  | some d =>
    match d.func with
    | none =>
      .error ("can not find the implementation of the method " ++
        d.dname.getD "None" ++ " in " ++ headName mro)
    | some f => .ok (fun a => f inst a)

/-- Embedding of `declare._get_name_of_stub` (lines 302-309) for stubs that
are plain functions (which always carry a `__name__`). -/
def stubDisplayName {T A R : Type} (d : Declaration T A R) : String :=
  d.stub.fname

/-- The effect of a successful `declare.impl` call: either the declaration
itself is filled (`self.__func__ = func`, line 353), or a fresh declaration
is installed directly on the given owner class under the declared name
(`setattr(owner, self.__name__, new_ext)`, lines 346-349). -/
inductive ImplEffect (T A R : Type) where
  | setSelf (d : Declaration T A R)
  | installOn (ownerName : String) (d : Declaration T A R)

/-- Embedding of `declare.impl` (lines 333-363).  `isCallable` stands for
`callable(func) or hasattr(func, "__get__")`.  When an owner is given and
the declared name is not in the owner's own namespace, a new declaration
with the same stub, the same name, and implementation `func` is installed
on the owner, leaving the receiver untouched; otherwise the receiver's own
slot is filled if empty, and an already-implemented error is raised if not
(message chosen by whether an owner was given). -/
def dImpl {T A R : Type} (d : Declaration T A R) (isCallable : Bool)
    (f : T → A → R) (owner : Option (DClass T A R)) :
    Except String (ImplEffect T A R) :=
  if ¬ isCallable then
    .error "expected a callable or a descriptor for implementation"
  else
    match owner with
    | some oc =>
      match d.dname with
      | none =>
        .error "only declarations inside a class can be implemented with an owner"
      | some nm =>
        if (alookup oc.dict nm).isSome then
          match d.func with
          | none => .ok (.setSelf { d with func := some f })
          | some _ =>
            .error ("method " ++ nm ++ " of class " ++ oc.cname ++
              " has already been implemented")
        else
          .ok (.installOn oc.cname ⟨some nm, d.stub, some f⟩)
    | none =>
      match d.func with
      | none => .ok (.setSelf { d with func := some f })
      | some _ =>
        .error ("function " ++ stubDisplayName d ++
          " has already been implemented")

/-- Whether a Python statement modeled as an `Except` raised. -/
def exceptIsError {ε α : Type} : Except ε α → Bool
  | .error _ => true
  | .ok _ => false

/-! ## Helper lemmas on the dict and list embeddings -/

theorem alookup_dictInsert_self {K V : Type} [DecidableEq K]
    (d : List (K × V)) (k : K) (v : V) :
    alookup (dictInsert d k v) k = some v := by
  induction d with
  | nil => simp [dictInsert, alookup]
  | cons hd tl ih =>
    obtain ⟨k2, v2⟩ := hd
    by_cases h : k2 = k
    · simp [dictInsert, alookup, h]
    · simp [dictInsert, alookup, h, ih]

theorem alookup_dictInsert_ne {K V : Type} [DecidableEq K]
    (d : List (K × V)) (k k2 : K) (v : V) (h : k2 ≠ k) :
    alookup (dictInsert d k v) k2 = alookup d k2 := by
  have hne : ¬ k = k2 := fun hh => h hh.symm
  induction d with
  | nil => simp [dictInsert, alookup, hne]
  | cons hd tl ih =>
    obtain ⟨k3, v3⟩ := hd
    by_cases h3 : k3 = k
    · subst h3
      simp [dictInsert, alookup, hne]
    · simp [dictInsert, alookup, h3, ih]

theorem dictErase_dictInsert {K V : Type} [DecidableEq K]
    (d : List (K × V)) (k : K) (v : V) (h : alookup d k = none) :
    dictErase (dictInsert d k v) k = d := by
  induction d with
  | nil => simp [dictInsert, dictErase]
  | cons hd tl ih =>
    obtain ⟨k2, v2⟩ := hd
    by_cases h2 : k2 = k
    · simp [alookup, h2] at h
    · simp [alookup, h2] at h
      simp [dictInsert, dictErase, h2, ih h]

theorem length_dictInsert {K V : Type} [DecidableEq K]
    (d : List (K × V)) (k : K) (v : V) :
    (dictInsert d k v).length =
      if (alookup d k).isSome then d.length else d.length + 1 := by
  induction d with
  | nil => simp [dictInsert, alookup]
  | cons hd tl ih =>
    obtain ⟨k2, v2⟩ := hd
    by_cases h : k2 = k
    · simp [dictInsert, alookup, h]
    · simp only [dictInsert, alookup, h, if_false, if_neg h, List.length_cons, ih]
      by_cases h2 : (alookup tl k).isSome <;> simp [h2]

theorem pyRemove_not_mem {α : Type} [DecidableEq α]
    (l : List α) (a : α) (h : a ∉ l) :
    pyRemove l a = .error "list remove: x not in list" := by
  induction l with
  | nil => rfl
  | cons x xs ih =>
    simp only [List.mem_cons, not_or] at h
    have hxa : ¬ x = a := fun hh => h.1 hh.symm
    simp [pyRemove, hxa, ih h.2, Except.map]

theorem resolveAttr_mem {T A R : Type} (mro : List (DClass T A R))
    (attr : String) (d : Declaration T A R)
    (h : resolveAttr mro attr = some d) :
    ∃ c ∈ mro, alookup c.dict attr = some d := by
  induction mro with
  | nil => simp [resolveAttr] at h
  | cons c rest ih =>
    by_cases hc : (alookup c.dict attr).isSome
    · obtain ⟨d2, hd2⟩ := Option.isSome_iff_exists.mp hc
      simp only [resolveAttr, hd2] at h
      exact ⟨c, List.mem_cons_self c rest, by rw [hd2, h]⟩
    · rw [Option.not_isSome_iff_eq_none] at hc
      simp only [resolveAttr, hc] at h
      obtain ⟨c2, hc2, hl⟩ := ih h
      exact ⟨c2, List.mem_cons_of_mem c hc2, hl⟩

theorem filterMap_invokeWith {V : Type} (l : List CB) (args : List V)
    (h : ∀ cb ∈ l, cb.introspectable = true) :
    l.filterMap (invokeWith args) =
      l.map (fun cb => (cb.id, if cb.hasParams then args.take 1 else [])) := by
  induction l with
  | nil => rfl
  | cons cb rest ih =>
    have hcb : cb.introspectable = true := h cb (List.mem_cons_self cb rest)
    have hrest : ∀ c ∈ rest, c.introspectable = true :=
      fun c hc => h c (List.mem_cons_of_mem cb hc)
    simp [List.filterMap_cons, invokeWith, hcb, ih hrest]

theorem vmGet_heap {K T A R : Type} [DecidableEq T] (vm : variantmethod K)
    (i : T) (σ : VMState K T A R) : ((vmGet vm i σ).2).heap = σ.heap := by
  unfold vmGet
  cases alookup (σ.storage i) vm.name <;> rfl

theorem vmGet_storage_ne {K T A R : Type} [DecidableEq T]
    (vm : variantmethod K) (i o : T) (σ : VMState K T A R) (h : o ≠ i) :
    ((vmGet vm i σ).2).storage o = σ.storage o := by
  cases h2 : alookup (σ.storage i) vm.name with
  | none => simp [vmGet, h2, h]
  | some d0 => simp [vmGet, h2]

theorem vmGet_vtAddr {K T A R : Type} [DecidableEq T] (vm : variantmethod K)
    (i : T) (σ : VMState K T A R)
    (hwf : ∀ d, alookup (σ.storage i) vm.name = some d →
      d.vtAddr = vm.vtAddr) :
    ((vmGet vm i σ).1).vtAddr = vm.vtAddr := by
  cases h : alookup (σ.storage i) vm.name with
  | none => simp [vmGet, h]
  | some d0 => simp [vmGet, h, hwf d0 h]

theorem vmGet_fst_congr {K T A R : Type} [DecidableEq T]
    (vm : variantmethod K) (i : T) (σ1 σ2 : VMState K T A R)
    (h : σ1.storage i = σ2.storage i) :
    (vmGet vm i σ1).1 = (vmGet vm i σ2).1 := by
  unfold vmGet
  rw [h]
  cases alookup (σ2.storage i) vm.name <;> rfl

theorem vCall_congr_heap {K T A R : Type} [DecidableEq K] [ToString K]
    (d : _Variant K T) (σ1 σ2 : VMState K T A R) (args : A)
    (h : σ1.heap = σ2.heap) : vCall d σ1 args = vCall d σ2 args := by
  simp [vCall, h]

/-! ## Claims -/

/-- C1: for every slot with a default factory and every instance with
attribute storage, the first get invokes the factory once and stores the
result under the slot name; a second get returns the identical stored
value without invoking the factory again; after a delete the next get
invokes the factory again and may yield a different reference (witnessed
by a factory for which the recomputed value differs). -/
theorem C1_lazy_slot_caches_until_delete {V : Type} (name : String)
    (fac : Nat → V) (σ : IPState V) (h : alookup σ.dict name = none) :
    ((iget name fac σ).1 = fac σ.fcalls ∧
      (iget name fac σ).2.fcalls = σ.fcalls + 1 ∧
      alookup (iget name fac σ).2.dict name = some ((iget name fac σ).1)) ∧
    iget name fac (iget name fac σ).2 =
      ((iget name fac σ).1, (iget name fac σ).2) ∧
    ((iget name fac (idelete name (iget name fac σ).2)).2.fcalls =
        σ.fcalls + 2 ∧
      (iget name fac (idelete name (iget name fac σ).2)).1 =
        fac (σ.fcalls + 1)) ∧
    (∃ g : Nat → Nat, ∃ τ : IPState Nat, alookup τ.dict name = none ∧
      (iget name g (idelete name (iget name g τ).2)).1 ≠ (iget name g τ).1) := by
  have h1 : iget name fac σ =
      (fac σ.fcalls, ⟨dictInsert σ.dict name (fac σ.fcalls), σ.fcalls + 1⟩) := by
    simp [iget, h]
  have hlook : alookup (dictInsert σ.dict name (fac σ.fcalls)) name =
      some (fac σ.fcalls) := alookup_dictInsert_self σ.dict name (fac σ.fcalls)
  have hdel : idelete name (iget name fac σ).2 = ⟨σ.dict, σ.fcalls + 1⟩ := by
    rw [h1]
    simp [idelete, hlook, dictErase_dictInsert σ.dict name (fac σ.fcalls) h]
  refine ⟨⟨?_, ?_, ?_⟩, ?_, ⟨?_, ?_⟩, ?_⟩
  · rw [h1]
  · rw [h1]
  · rw [h1]; exact hlook
  · rw [h1]; simp [iget, hlook]
  · rw [hdel]; simp [iget, h]
  · rw [hdel]; simp [iget, h]
  · refine ⟨fun n => n, ⟨[], 0⟩, rfl, ?_⟩
    have hget : iget name (fun n => n) (⟨[], 0⟩ : IPState Nat) =
        (0, ⟨[(name, 0)], 1⟩) := by
      simp [iget, alookup, dictInsert]
    have hdel2 : idelete name (⟨[(name, 0)], 1⟩ : IPState Nat) = ⟨[], 1⟩ := by
      simp [idelete, alookup, dictErase]
    rw [hget, hdel2]
    simp [iget, alookup]

/-- C1 witness: instantiation of the caching theorem at the slot name `a`,
the identity factory and an empty storage. -/
theorem C1_lazy_slot_caches_until_delete_witness :
    alookup (IPState.mk ([] : List (String × Nat)) 0).dict "a" = none ∧
    (iget "a" (fun n => n) (IPState.mk [] 0)).2.fcalls = 0 + 1 ∧
    iget "a" (fun n => n) (iget "a" (fun n => n) (IPState.mk [] 0)).2 =
      ((iget "a" (fun n => n) (IPState.mk ([] : List (String × Nat)) 0)).1,
        (iget "a" (fun n => n) (IPState.mk [] 0)).2) :=
  ⟨rfl,
    (C1_lazy_slot_caches_until_delete "a" (fun n => n) (IPState.mk [] 0) rfl).1.2.1,
    (C1_lazy_slot_caches_until_delete "a" (fun n => n) (IPState.mk [] 0) rfl).2.1⟩

/-- C8 counterexample: re-binding a `declare` under the private name `_y`
after it was bound as `x` raises, although the claim says private
re-bindings are tolerated without error for slots and declarations. -/
theorem C8_private_rebind_of_declare_raises :
    exceptIsError (declSetName (some "x") "_y") = true ∧
    startsWithUnderscore "_y" = true := by
  constructor
  · have hne : ("_y" : String) ≠ "x" := by decide
    simp [declSetName, exceptIsError, hne]
  · decide

/-- C8 (amended): binding a slot in a class body under a second name
different from its first-bound name raises exactly when the second name is
public, and re-bindings under an underscore-prefixed name are tolerated;
but a declaration raises for every second distinct name, public or
private. -/
theorem C8_second_binding_conflicts (n name : String) :
    (exceptIsError (ipSetName (some n) name) = true ↔
      (name ≠ n ∧ startsWithUnderscore name = false)) ∧
    (name = n ∨ startsWithUnderscore name = true →
      ipSetName (some n) name = .ok (some n)) ∧
    (exceptIsError (declSetName (some n) name) = true ↔ name ≠ n) ∧
    (name = n → declSetName (some n) name = .ok (some n)) := by
  refine ⟨?_, ?_, ?_, ?_⟩
  · by_cases h1 : name = n
    · simp [ipSetName, exceptIsError, h1]
    · by_cases h2 : startsWithUnderscore name = true
      · simp [ipSetName, exceptIsError, h1, h2]
      · simp only [Bool.not_eq_true] at h2
        simp [ipSetName, exceptIsError, h1, h2]
  · intro hc
    rcases hc with h1 | h2
    · simp [ipSetName, h1]
    · simp [ipSetName, h2]
  · by_cases hc : name = n <;> simp [declSetName, exceptIsError, hc]
  · intro hc; simp [declSetName, hc]

/-- C8 witness: the slot tolerates the private re-binding `_y` after `x`,
while the declaration raises on it. -/
theorem C8_second_binding_conflicts_witness :
    ipSetName (some "x") "_y" = .ok (some "x") ∧
    exceptIsError (declSetName (some "x") "_y") = true :=
  ⟨(C8_second_binding_conflicts "x" "_y").2.1 (Or.inr (by decide)),
    (C8_second_binding_conflicts "x" "_y").2.2.1.mpr (by decide)⟩

/-- C2: for every dispatcher and every key, `set(k)` succeeds and updates
`curr_key` with no validation against table membership; a subsequent call
raises `no variant was registered by k` exactly when the key is absent from
the table, and otherwise invokes the found implementation bound to the
owning instance with the given arguments and returns its result
unchanged. -/
theorem C2_set_unvalidated_call_dispatches {K T A R : Type} [DecidableEq K]
    [ToString K] (σ : VMState K T A R) (d : _Variant K T) (k : K)
    (args : A) :
    (vSet d k).curr_key = k ∧
    (alookup (σ.heap d.vtAddr) k = none →
      vCall (vSet d k) σ args =
        .error ("no variant was registered by " ++ toString k)) ∧
    (∀ impl, alookup (σ.heap d.vtAddr) k = some impl →
      vCall (vSet d k) σ args = .ok (impl d.inst args)) := by
  refine ⟨rfl, ?_, ?_⟩
  · intro h
    simp [vCall, vSet, h]
  · intro impl h
    simp [vCall, vSet, h]

/-- C2 witness: on a table holding only the key `a`, setting the
unregistered key `b` succeeds and the subsequent call raises; after setting
`a`, the call returns the implementation applied to the instance and the
argument. -/
theorem C2_set_unvalidated_call_dispatches_witness :
    vCall (vSet (⟨0, "z", 7⟩ : _Variant String Nat) "b")
        (⟨fun _ => [("a", fun t x => t + x)], fun _ => []⟩ :
          VMState String Nat Nat Nat) 5 =
      .error ("no variant was registered by " ++ toString "b") ∧
    vCall (vSet (⟨0, "z", 7⟩ : _Variant String Nat) "a")
        (⟨fun _ => [("a", fun t x => t + x)], fun _ => []⟩ :
          VMState String Nat Nat Nat) 5 =
      .ok 12 :=
  ⟨(C2_set_unvalidated_call_dispatches
      (⟨fun _ => [("a", fun t x => t + x)], fun _ => []⟩ :
        VMState String Nat Nat Nat) ⟨0, "z", 7⟩ "b" 5).2.1 (by
        have hne : ("a" : String) ≠ "b" := by decide
        simp [alookup, hne]),
    (C2_set_unvalidated_call_dispatches
      (⟨fun _ => [("a", fun t x => t + x)], fun _ => []⟩ :
        VMState String Nat Nat Nat) ⟨0, "z", 7⟩ "a" 5).2.2
      (fun t x => t + x) (by simp [alookup])⟩

/-- C3: every dispatcher materialized from a `variantmethod` holds a
reference to the class-level virtual table, so a registration performed
after materialization makes `contains` true, grows `len` by one when the
key is new (and leaves it unchanged otherwise), and makes calls dispatched
through that key — via `set` then call, or via `__getitem__` — invoke the
newly registered implementation bound to the dispatcher's instance.  The
hypothesis states the materialization invariant: anything cached under the
slot name was built by this `variantmethod` and so references its table. -/
theorem C3_late_registration_visible_to_dispatchers {K T A R : Type}
    [DecidableEq K] [DecidableEq T] [ToString K] (vm : variantmethod K)
    (i : T) (σ : VMState K T A R) (k : K) (g : T → A → R) (args : A)
    (hwf : ∀ d, alookup (σ.storage i) vm.name = some d →
      d.vtAddr = vm.vtAddr) :
    vContains (vmGet vm i σ).1 (vmRegister vm k g (vmGet vm i σ).2) k =
      true ∧
    vLen (vmGet vm i σ).1 (vmRegister vm k g (vmGet vm i σ).2) =
      (if vContains (vmGet vm i σ).1 (vmGet vm i σ).2 k then
        vLen (vmGet vm i σ).1 (vmGet vm i σ).2
      else vLen (vmGet vm i σ).1 (vmGet vm i σ).2 + 1) ∧
    vCall (vSet (vmGet vm i σ).1 k) (vmRegister vm k g (vmGet vm i σ).2)
        args =
      .ok (g ((vmGet vm i σ).1).inst args) ∧
    vItem (vmGet vm i σ).1 (vmRegister vm k g (vmGet vm i σ).2) k =
      .ok (fun a => g ((vmGet vm i σ).1).inst a) := by
  have haddr : ((vmGet vm i σ).1).vtAddr = vm.vtAddr := vmGet_vtAddr vm i σ hwf
  have hheap : ∀ n, (vmRegister vm k g (vmGet vm i σ).2).heap n =
      if n = vm.vtAddr then dictInsert (((vmGet vm i σ).2).heap n) k g
      else ((vmGet vm i σ).2).heap n := fun n => rfl
  have htbl : (vmRegister vm k g (vmGet vm i σ).2).heap
      ((vmGet vm i σ).1).vtAddr =
      dictInsert (((vmGet vm i σ).2).heap ((vmGet vm i σ).1).vtAddr) k g := by
    rw [hheap, haddr, if_pos rfl]
  refine ⟨?_, ?_, ?_, ?_⟩
  · simp [vContains, htbl, alookup_dictInsert_self]
  · simp [vLen, vContains, htbl,
      length_dictInsert (((vmGet vm i σ).2).heap ((vmGet vm i σ).1).vtAddr) k g]
  · show vCall (vSet (vmGet vm i σ).1 k) _ args = _
    simp [vCall, vSet, htbl, alookup_dictInsert_self]
  · simp [vItem, htbl, alookup_dictInsert_self]

/-- C3 witness: with a single-entry table at address 0 and an instance
whose storage is empty, registering `b` after materializing instance 3's
dispatcher makes the key visible and dispatches to the new
implementation. -/
theorem C3_late_registration_visible_to_dispatchers_witness :
    vContains (vmGet (⟨"m", 0, "a"⟩ : variantmethod String) 3
        (⟨fun _ => [("a", fun t x => t + x)], fun _ => []⟩ :
          VMState String Nat Nat Nat)).1
      (vmRegister ⟨"m", 0, "a"⟩ "b" (fun t x => t * x)
        (vmGet (⟨"m", 0, "a"⟩ : variantmethod String) 3
          ⟨fun _ => [("a", fun t x => t + x)], fun _ => []⟩).2) "b" = true ∧
    vCall (vSet (vmGet (⟨"m", 0, "a"⟩ : variantmethod String) 3
        (⟨fun _ => [("a", fun t x => t + x)], fun _ => []⟩ :
          VMState String Nat Nat Nat)).1 "b")
      (vmRegister ⟨"m", 0, "a"⟩ "b" (fun t x => t * x)
        (vmGet (⟨"m", 0, "a"⟩ : variantmethod String) 3
          ⟨fun _ => [("a", fun t x => t + x)], fun _ => []⟩).2) 5 =
      .ok 15 :=
  ⟨(C3_late_registration_visible_to_dispatchers ⟨"m", 0, "a"⟩ 3
      ⟨fun _ => [("a", fun t x => t + x)], fun _ => []⟩ "b" (fun t x => t * x)
      5 (fun _ h => nomatch h)).1,
    (C3_late_registration_visible_to_dispatchers ⟨"m", 0, "a"⟩ 3
      ⟨fun _ => [("a", fun t x => t + x)], fun _ => []⟩ "b" (fun t x => t * x)
      5 (fun _ h => nomatch h)).2.2.1⟩

/-- C7: for two sibling instances sharing one variant-method table, setting
a key on instance `a`'s dispatcher changes only `a`'s state: instance `b`'s
storage entry (hence its dispatcher's `curr_key`) is untouched, the shared
table is untouched, and the outcome of `b`'s subsequent calls is
unchanged. -/
theorem C7_set_isolated_per_instance {K T A R : Type} [DecidableEq K]
    [DecidableEq T] [ToString K] (vm : variantmethod K) (a b : T) (k : K)
    (σ : VMState K T A R) (args : A) (hne : b ≠ a) :
    (sysSet vm a k σ).storage b = σ.storage b ∧
    (sysSet vm a k σ).heap = σ.heap ∧
    (sysCall vm b args (sysSet vm a k σ)).1 = (sysCall vm b args σ).1 := by
  have hstore : (sysSet vm a k σ).storage b = σ.storage b := by
    show (if b = a then _ else ((vmGet vm a σ).2).storage b) = σ.storage b
    rw [if_neg hne]
    exact vmGet_storage_ne vm a b σ hne
  have hheap : (sysSet vm a k σ).heap = σ.heap := vmGet_heap vm a σ
  refine ⟨hstore, hheap, ?_⟩
  show vCall (vmGet vm b (sysSet vm a k σ)).1 (vmGet vm b (sysSet vm a k σ)).2
      args = vCall (vmGet vm b σ).1 (vmGet vm b σ).2 args
  rw [vmGet_fst_congr vm b (sysSet vm a k σ) σ hstore]
  apply vCall_congr_heap
  rw [vmGet_heap, vmGet_heap, hheap]

/-- C7 witness: with instances 1 and 2, setting key `b` on instance 1
leaves instance 2's storage and call outcome unchanged. -/
theorem C7_set_isolated_per_instance_witness :
    (sysSet (⟨"m", 0, "a"⟩ : variantmethod String) 1 "b"
        (⟨fun _ => [("a", fun t x => t + x)], fun _ => []⟩ :
          VMState String Nat Nat Nat)).storage 2 =
      (⟨fun _ => [("a", fun t x => t + x)], fun _ => []⟩ :
        VMState String Nat Nat Nat).storage 2 ∧
    (sysCall (⟨"m", 0, "a"⟩ : variantmethod String) 2 5
        (sysSet ⟨"m", 0, "a"⟩ 1 "b"
          (⟨fun _ => [("a", fun t x => t + x)], fun _ => []⟩ :
            VMState String Nat Nat Nat))).1 =
      (sysCall (⟨"m", 0, "a"⟩ : variantmethod String) 2 5
        ⟨fun _ => [("a", fun t x => t + x)], fun _ => []⟩).1 :=
  ⟨(C7_set_isolated_per_instance ⟨"m", 0, "a"⟩ 1 2 "b"
      ⟨fun _ => [("a", fun t x => t + x)], fun _ => []⟩ 5 (by decide)).1,
    (C7_set_isolated_per_instance ⟨"m", 0, "a"⟩ 1 2 "b"
      ⟨fun _ => [("a", fun t x => t + x)], fun _ => []⟩ 5 (by decide)).2.2⟩

/-- C4: `emit` invokes the resolved callbacks in order — descriptor-bound
callbacks first in registration order, then free callbacks in registration
order — and adapts the arity of each: a callback whose signature has no
parameters is invoked with no arguments, while a callback expecting at
least one parameter receives the emitted value when `emit` was called with
one argument.  The hypothesis restricts to callbacks whose signatures can
be introspected (non-introspectable ones are silently skipped by the
source). -/
theorem C4_emit_order_and_arity {T V : Type} (obj : T)
    (cb_m : List (T → CB)) (cb_f : List CB) (x : V)
    (h : ∀ cb ∈ mkEmitter obj cb_m cb_f, cb.introspectable = true) :
    emit (mkEmitter obj cb_m cb_f) [x] =
      .ok ((cb_m.map (fun desc => desc obj) ++ cb_f).map
        (fun cb => (cb.id, if cb.hasParams then [x] else []))) := by
  have hlen : ¬ ([x].length > 1) := by simp
  simp only [emit, if_neg hlen]
  rw [filterMap_invokeWith (mkEmitter obj cb_m cb_f) [x] h]
  rfl

/-- C4 witness: one zero-argument descriptor-bound callback (id 0) and one
one-argument free callback (id 1): `emit` with the value 9 invokes the
former with no arguments and passes 9 to the latter, in that order. -/
theorem C4_emit_order_and_arity_witness :
    emit (mkEmitter (7 : Nat) [fun _ => ⟨0, false, true⟩] [⟨1, true, true⟩])
        [(9 : Nat)] =
      .ok [(0, []), (1, [9])] :=
  C4_emit_order_and_arity 7 [fun _ => ⟨0, false, true⟩] [⟨1, true, true⟩] 9
    (by intro cb hcb; fin_cases hcb <;> rfl)

/-- C9: `emit` with more than one positional value raises the
too-many-arguments error before any callback is invoked — the error result
carries no invocation trace, so no callback observes the emission. -/
theorem C9_emit_too_many_arguments {V : Type} (cbs : List CB)
    (args : List V) (h : args.length > 1) :
    emit cbs args = .error "too many arguments for emit" := by
  simp [emit, h]

/-- C9 witness: emitting two values raises even with callbacks
registered. -/
theorem C9_emit_too_many_arguments_witness :
    emit [⟨0, true, true⟩] [(1 : Nat), 2] =
      .error "too many arguments for emit" :=
  C9_emit_too_many_arguments [⟨0, true, true⟩] [1, 2] (by decide)

/-- C10: `unbindf` on a target never bound as a free callback, and
`unbindm` on a target never bound as a descriptor callback, raise the
list-removal error (so the class-level registry is unchanged: the raise
propagates before any reassignment), while the per-instance `disconnect`
is a silent no-op for an absent target. -/
theorem C10_unbind_raises_disconnect_noop (s : Signal) (g m : Nat)
    (hg : g ∉ s.cb_f) (hm : m ∉ s.cb_m) :
    Signal.unbindf s g = .error "list remove: x not in list" ∧
    Signal.unbindm s m = .error "list remove: x not in list" ∧
    (∀ l : List Nat, ∀ a, a ∉ l → disconnect l a = l) := by
  refine ⟨?_, ?_, ?_⟩
  · simp [Signal.unbindf, pyRemove_not_mem s.cb_f g hg, Except.map]
  · simp [Signal.unbindm, pyRemove_not_mem s.cb_m m hm, Except.map]
  · intro l a ha
    simp [disconnect, pyRemove_not_mem l a ha]

/-- C10 witness: on a registry holding descriptor callback 1 and free
callback 2, unbinding the never-bound targets 5 and 6 raises, and
disconnecting 5 from a resolved list not containing it returns the list
unchanged. -/
theorem C10_unbind_raises_disconnect_noop_witness :
    Signal.unbindf ⟨[1], [2]⟩ 5 = .error "list remove: x not in list" ∧
    Signal.unbindm ⟨[1], [2]⟩ 6 = .error "list remove: x not in list" ∧
    disconnect [1, 2] 5 = [1, 2] :=
  ⟨(C10_unbind_raises_disconnect_noop ⟨[1], [2]⟩ 5 6 (by decide)
      (by decide)).1,
    (C10_unbind_raises_disconnect_noop ⟨[1], [2]⟩ 5 6 (by decide)
      (by decide)).2.1,
    (C10_unbind_raises_disconnect_noop ⟨[1], [2]⟩ 5 6 (by decide)
      (by decide)).2.2 [1, 2] 5 (by decide)⟩

/-- C5: fetching a declared method through an instance while no
implementation exists in the resolution chain raises the not-implemented
error naming the method and the accessed class; after `impl(f)` on the
unfilled declaration, fetching returns `f` bound to the instance (so
calling it returns the result of `f`); a second `impl` on the same
declaration raises the already-implemented error, leaving the stored
implementation unchanged (the raise produces no effect). -/
theorem C5_declare_not_implemented_then_impl_once {T A R : Type}
    (mro : List (DClass T A R)) (attr cn : String) (inst : T)
    (d : Declaration T A R) (f g : T → A → R)
    (hres : resolveAttr mro attr = some d)
    (hchain : ∀ c ∈ mro, ∀ d2, alookup c.dict attr = some d2 →
      d2.func = none) :
    dGet mro attr inst =
      .error ("can not find the implementation of the method " ++
        d.dname.getD "None" ++ " in " ++ headName mro) ∧
    dImpl d true f none = .ok (.setSelf { d with func := some f }) ∧
    dGet [⟨cn, [(attr, { d with func := some f })]⟩] attr inst =
      .ok (fun a => f inst a) ∧
    dImpl { d with func := some f } true g none =
      .error ("function " ++ stubDisplayName d ++
        " has already been implemented") := by
  have hfunc : d.func = none := by
    obtain ⟨c, hc, hl⟩ := resolveAttr_mem mro attr d hres
    exact hchain c hc d hl
  refine ⟨?_, ?_, ?_, ?_⟩
  · simp [dGet, hres, hfunc]
  · simp [dImpl, hfunc]
  · simp [dGet, resolveAttr, alookup]
  · simp [dImpl, stubDisplayName]

/-- C5 witness: a declaration named `meth` on class `C` with an empty
implementation slot raises the not-implemented error on fetch; after
filling it with addition, fetch through instance 4 yields the bound
implementation. -/
theorem C5_declare_not_implemented_then_impl_once_witness :
    dGet [(⟨"C", [("meth", ⟨some "meth", ⟨"meth", fun _ _ => 0⟩, none⟩)]⟩ :
        DClass Nat Nat Nat)] "meth" 4 =
      .error ("can not find the implementation of the method " ++
        (some "meth").getD "None" ++ " in " ++ "C") ∧
    dGet [(⟨"C2", [("meth",
        ⟨some "meth", ⟨"meth", fun _ _ => 0⟩, some (fun t a => t + a)⟩)]⟩ :
          DClass Nat Nat Nat)] "meth" 4 =
      .ok (fun a => 4 + a) :=
  ⟨(C5_declare_not_implemented_then_impl_once
      [⟨"C", [("meth", ⟨some "meth", ⟨"meth", fun _ _ => 0⟩, none⟩)]⟩]
      "meth" "C2" 4 ⟨some "meth", ⟨"meth", fun _ _ => 0⟩, none⟩
      (fun t a => t + a) (fun t a => t * a)
      (by simp [resolveAttr, alookup])
      (by
        intro c hc d2 hd2
        simp only [List.mem_singleton] at hc
        subst hc
        simp [alookup] at hd2
        rw [← hd2])).1,
    (C5_declare_not_implemented_then_impl_once
      [⟨"C", [("meth", ⟨some "meth", ⟨"meth", fun _ _ => 0⟩, none⟩)]⟩]
      "meth" "C2" 4 ⟨some "meth", ⟨"meth", fun _ _ => 0⟩, none⟩
      (fun t a => t + a) (fun t a => t * a)
      (by simp [resolveAttr, alookup])
      (by
        intro c hc d2 hd2
        simp only [List.mem_singleton] at hc
        subst hc
        simp [alookup] at hd2
        rw [← hd2])).2.2.1⟩

/-- C6: implementing a declaration that lives on a parent class with
`impl(g, owner=Subclass)`, when the subclass does not define the name in
its own namespace, installs a fresh declaration (same stub, same name,
implementation `g`) directly on the subclass and leaves the parent's
declaration untouched: fetching through the subclass resolution order
invokes `g`, while fetching through the parent still invokes `f`. -/
theorem C6_subclass_override_is_scoped {T A R : Type} (P S : DClass T A R)
    (attr : String) (dP : Declaration T A R) (f g : T → A → R)
    (inst1 inst2 : T)
    (hP : alookup P.dict attr = some dP)
    (hname : dP.dname = some attr)
    (hf : dP.func = some f)
    (hS : alookup S.dict attr = none) :
    dImpl dP true g (some S) =
      .ok (.installOn S.cname ⟨some attr, dP.stub, some g⟩) ∧
    dGet [⟨S.cname, dictInsert S.dict attr ⟨some attr, dP.stub, some g⟩⟩, P]
        attr inst2 = .ok (fun a => g inst2 a) ∧
    dGet [P] attr inst1 = .ok (fun a => f inst1 a) := by
  refine ⟨?_, ?_, ?_⟩
  · simp [dImpl, hname, hS]
  · simp [dGet, resolveAttr, alookup_dictInsert_self S.dict attr]
  · simp [dGet, resolveAttr, hP, hf]

/-- C6 witness: parent `P` implements `meth` with addition; implementing
multiplication for subclass `S` makes instances of `S` multiply while
instances of `P` still add. -/
theorem C6_subclass_override_is_scoped_witness :
    dGet [⟨"S", dictInsert ([] : List (String × Declaration Nat Nat Nat))
          "meth" ⟨some "meth", ⟨"meth", fun _ _ => 0⟩, some (fun t a => t * a)⟩⟩,
        ⟨"P", [("meth", ⟨some "meth", ⟨"meth", fun _ _ => 0⟩,
          some (fun t a => t + a)⟩)]⟩] "meth" 4 = .ok (fun a => 4 * a) ∧
    dGet [(⟨"P", [("meth", ⟨some "meth", ⟨"meth", fun _ _ => 0⟩,
        some (fun t a => t + a)⟩)]⟩ : DClass Nat Nat Nat)] "meth" 3 =
      .ok (fun a => 3 + a) :=
  ⟨(C6_subclass_override_is_scoped
      ⟨"P", [("meth", ⟨some "meth", ⟨"meth", fun _ _ => 0⟩,
        some (fun t a => t + a)⟩)]⟩ ⟨"S", []⟩ "meth"
      ⟨some "meth", ⟨"meth", fun _ _ => 0⟩, some (fun t a => t + a)⟩
      (fun t a => t + a) (fun t a => t * a) 3 4
      (by simp [alookup]) rfl rfl rfl).2.1,
    (C6_subclass_override_is_scoped
      ⟨"P", [("meth", ⟨some "meth", ⟨"meth", fun _ _ => 0⟩,
        some (fun t a => t + a)⟩)]⟩ ⟨"S", []⟩ "meth"
      ⟨some "meth", ⟨"meth", fun _ _ => 0⟩, some (fun t a => t + a)⟩
      (fun t a => t + a) (fun t a => t * a) 3 4
      (by simp [alookup]) rfl rfl rfl).2.2⟩

end Classtools
